import Mathlib

/-!
Shallow embedding of the chunked Terraform-state engine of
`src/__main__.py` (a Vault backend for Terraform), together with proofs
of the specified properties.

Modelling conventions:
* A Python `str` is modelled as its character sequence `List Char`
  (`PyStr`); Python slicing `s[a:b]` becomes `(s.drop a).take (b - a)`.
* A Python `bytes` value is modelled as `List Nat` (its byte sequence).
* The standard-library collaborators `json`, `gzip`, `base64` and the
  UTF-8 string codec are external to the repository; they are modelled
  by interface (`Codec`), and theorems that need their behaviour take
  their documented round-trip contracts as hypotheses.
* The Vault secret store is likewise external; the engine sees only the
  path-addressed operations of the spec's StoreAdapter, so store
  behaviour enters as explicit parameters (listing results, read
  results, a write outcome per payload).
* The two `while` loops of the source (`_chunk_size_probe` and the
  fragment-writing loop of `set_state`) have no syntactic termination
  guarantee, so they are embedded with explicit fuel; `none` models a
  computation that has not terminated within the given fuel.
-/

/-- Python `str`, modelled as its sequence of characters. -/
abbrev PyStr := List Char

/-- Characters of a Lean string literal, used to write concrete `PyStr` values. -/
def pystr (s : String) : PyStr := s.data

/-- `STATE_ENCODING = "utf-8"` from the source. -/
def STATE_ENCODING : PyStr := pystr "utf-8"

/-- `GZIP_COMPRESSLEVEL = 9` from the source (the fixed compression level). -/
def GZIP_COMPRESSLEVEL : Nat := 9

/-- `FORMAT_VERSION = "v0"` from the source. -/
def FORMAT_VERSION : PyStr := pystr "v0"

/-- `SERIALIZED_STATE_PIECES = 2` from the source. -/
def SERIALIZED_STATE_PIECES : Nat := 2

/-- A JSON-representable Python value (`json.dumps`/`json.loads` domain).
Numbers are modelled as integers; the claims under study only need the
falsy value `0` from the numeric tower. -/
inductive JValue where
  | null
  | bool (b : Bool)
  | num (n : Int)
  | str (s : PyStr)
  | arr (xs : List JValue)
  | obj (kvs : List (PyStr × JValue))

/-- Python truthiness of a JSON-representable value: `None`, `False`,
`0`, `""`, `[]` and `{}` are falsy, everything else truthy. -/
def pyTruthy : JValue → Bool
  | .null => false
  | .bool b => b
  | .num n => n != 0
  | .str s => !s.isEmpty
  | .arr xs => !xs.isEmpty
  | .obj kvs => !kvs.isEmpty

/-- The error raised by `unpack_state`, mirroring the exception classes
`MissingFormatVersionError` and `UnsupportedFormatVersionError` of the
source (`UnsupportedFormatVersionError` carries `actual_version`).
`payloadDecodeFailure` stands for any exception raised by the
base64/gzip/json/utf-8 stages on malformed payloads. -/
inductive StateFormatErr where
  | missingFormatVersion
  | unsupportedFormatVersion (actual_version : PyStr)
  | payloadDecodeFailure
deriving DecidableEq

/-- The external standard-library codecs used by `pack_state` and
`unpack_state`, modelled by interface: `dumps`/`loads` are `json.dumps`
and `json.loads`, `utf8encode`/`utf8decode` are `str.encode("utf-8")`
and `bytes.decode("utf-8")`, `compress`/`decompress` are
`gzip.compress(·, compresslevel=9, mtime=0)` and `gzip.decompress`,
`b64encode`/`b64decode` are `base64.b64encode` and `base64.b64decode`.
Each decoding direction is partial (`Option`), modelling the exceptions
those libraries raise on malformed input. -/
structure Codec (α : Type) where
  dumps : α → PyStr
  loads : PyStr → Option α
  utf8encode : PyStr → List Nat
  utf8decode : List Nat → Option PyStr
  compress : List Nat → List Nat
  decompress : List Nat → Option (List Nat)
  b64encode : List Nat → PyStr
  b64decode : PyStr → Option (List Nat)

/-- `pack_state` from the source: JSON-encode, UTF-8-encode, gzip with
the fixed level and zeroed timestamp, base64-encode, and prepend
`f"{FORMAT_VERSION}:"`. -/
def pack_state (c : Codec α) (o : α) : PyStr :=
  let json_str := c.dumps o
  let json_bytes := c.utf8encode json_str
  let gzip_bytes := c.compress json_bytes
  let b64 := c.b64encode gzip_bytes
  FORMAT_VERSION ++ ':' :: b64

/-- Python `s.split(":", 1)` restricted to its interesting outcome:
`none` when `s` contains no `':'` (the split yields a single piece),
`some (before, after)` when it splits at the first `':'`. -/
def splitOnceColon : PyStr → Option (PyStr × PyStr)
  | [] => none
  | ch :: rest =>
    if ch = ':' then some ([], rest)
    else (splitOnceColon rest).map (fun p => (ch :: p.1, p.2))

/-- `unpack_state` from the source: split once on `':'`; fewer than
`SERIALIZED_STATE_PIECES` pieces raises `MissingFormatVersionError`; a
version tag different from `FORMAT_VERSION` raises
`UnsupportedFormatVersionError(version)`; otherwise base64-decode,
gunzip, UTF-8-decode and JSON-decode the payload. -/
def unpack_state (c : Codec α) (state : PyStr) : Except StateFormatErr α :=
  match splitOnceColon state with
  | none => .error .missingFormatVersion
  | some (version, b64) =>
    if version ≠ FORMAT_VERSION then .error (.unsupportedFormatVersion version)
    else
      match c.b64decode b64 with
      | none => .error .payloadDecodeFailure
      | some gzip_bytes =>
        match c.decompress gzip_bytes with
        | none => .error .payloadDecodeFailure
        | some json_bytes =>
          match c.utf8decode json_bytes with
          | none => .error .payloadDecodeFailure
          | some json_str =>
            match c.loads json_str with
            | none => .error .payloadDecodeFailure
            | some o => .ok o

/-- Characters to their code points; stands in for a concrete byte codec
in test instantiations. -/
def strToNats (s : PyStr) : List Nat := s.map Char.toNat

/-- Code points back to characters; inverse of `strToNats` on valid input. -/
def natsToStr (ns : List Nat) : PyStr := ns.map Char.ofNat

/-- A concrete, executable instantiation of the external codecs, rich
enough to carry the value `null` through the whole pipeline; used to
evaluate the engine on concrete inputs. -/
def testCodec : Codec JValue where
  dumps := fun v => match v with | .null => pystr "null" | _ => pystr "x"
  loads := fun s => if s = pystr "null" then some .null else none
  utf8encode := strToNats
  utf8decode := fun ns => some (natsToStr ns)
  compress := fun bs => bs
  decompress := fun bs => some bs
  b64encode := natsToStr
  b64decode := fun s => some (strToNats s)

/-- What `read_secret_version(path, raise_on_deleted_version=False)`
returns for a state-chunk path: the stored `value` field and the
`deletion_time` metadata string (empty when the version is live). -/
structure Secret where
  value : PyStr
  deletion_time : PyStr

/-- The body of the per-chunk loop of `get_state`: a chunk whose
`deletion_time` metadata is non-empty is marked invalid (`None` in the
`chunks` dict); otherwise the dict entry becomes the stored value. -/
def chunk_read (read : PyStr → Secret) (chunk_key : PyStr) : Option PyStr :=
  if (read chunk_key).deletion_time ≠ [] then none
  else some (read chunk_key).value

/-- Python truthiness of a `str | None` dict entry, as used by the
`valid_chunks` comprehension `{k: v for k, v in chunks.items() if v}`. -/
def optTruthy : Option PyStr → Bool
  | none => false
  | some s => !s.isEmpty

/-- The text reassembled by `get_state`: build the `chunks` dict in the
store's listing order, keep the truthy entries (`valid_chunks`) and join
their values (`"".join(valid_chunks.values())`). -/
def get_state_text (chunk_keys : List PyStr) (read : PyStr → Secret) : PyStr :=
  let chunks : List (PyStr × Option PyStr) :=
    chunk_keys.map (fun k => (k, chunk_read read k))
  let valid_chunks := chunks.filter (fun kv => optTruthy kv.2)
  (valid_chunks.map (fun kv => kv.2.getD [])).flatten

/-- The error outcomes of `get_state`: the HTTP 404 raised by
`_get_chunk_keys` when listing the state path fails with `InvalidPath`
("No state exists"), or a `StateFormatError` escaping `unpack_state`. -/
inductive GetStateErr where
  | notFound
  | format (e : StateFormatErr)
deriving DecidableEq

/-- `get_state` from the source. The listing outcome of
`_get_chunk_keys` is an explicit input: `none` models the store's
`InvalidPath` answer (no keys at the state path), which `get_state`
turns into 404; `some keys` is the listed key set in listing order.
The final step is `unpack_state("".join(valid_chunks.values())) or {}`. -/
def get_state (c : Codec JValue) (listing : Option (List PyStr))
    (read : PyStr → Secret) : Except GetStateErr JValue :=
  match listing with
  | none => .error .notFound
  | some chunk_keys =>
    match unpack_state c (get_state_text chunk_keys read) with
    | .error e => .error (.format e)
    | .ok o => .ok (if pyTruthy o then o else .obj [])

/-- Python `int(k)` on the decimal key strings the engine itself writes
(`get_state_chunk_path(i)` stringifies a non-negative integer). -/
def parse_index (k : PyStr) : Nat :=
  k.foldl (fun acc ch => acc * 10 + (ch.toNat - 48)) 0

/-- Insert an indexed fragment into a list sorted by ascending index. -/
def insertByIdx (x : Nat × PyStr) : List (Nat × PyStr) → List (Nat × PyStr)
  | [] => [x]
  | y :: ys => if x.1 ≤ y.1 then x :: y :: ys else y :: insertByIdx x ys

/-- Insertion sort of indexed fragments by ascending numeric index. -/
def sortByIdx : List (Nat × PyStr) → List (Nat × PyStr)
  | [] => []
  | x :: xs => insertByIdx x (sortByIdx xs)

/-- Modelled from the spec: the ReassemblyValidator of §4.5, which the
source's `get_state` is claimed to implement — discard fragments whose
deletion marker is set, parse each remaining key as an integer index,
sort ascending numerically, and concatenate the values in that order.
Stated only for comparison with `get_state_text`. -/
def reassemble_sorted (chunk_keys : List PyStr) (read : PyStr → Secret) : PyStr :=
  let valid := chunk_keys.filter (fun k => (read k).deletion_time = [])
  let pairs := valid.map (fun k => (parse_index k, (read k).value))
  ((sortByIdx pairs).map Prod.snd).flatten

/-- Outcome of one store write
(`create_or_update_secret` on a chunk path), as the engine classifies
it: success, an `InternalServerError` recognised by `is_maxlimit_error`
(the "put failed due to value being too large" capacity condition), or
any other error, which the engine re-raises. -/
inductive WriteResult where
  | ok
  | capacityExceeded
  | otherError
deriving DecidableEq

/-- A store whose writes succeed exactly when the payload is at most `T`
characters long, the capacity behaviour the spec's probing property
quantifies over. -/
def thresholdStore (T : Nat) : PyStr → WriteResult :=
  fun s => if s.length ≤ T then .ok else .capacityExceeded

/-- The `while True` loop of `_chunk_size_probe`, with fuel: write
`data[:cut_off]` at chunk index 0; on a capacity error retry with
`cut_off // 2`; re-raise any other error; return the accepted `cut_off`
on success. Also returns the list of attempted cut-offs (the halving
sequence), so that theorems can speak about every write the probe made.
`none` means the fuel ran out before the loop exited. -/
def chunk_size_probe_loop (store : PyStr → WriteResult) (data : PyStr) :
    Nat → Nat → Option (List Nat × Except Unit Nat)
  | 0, _ => none
  | fuel + 1, cut_off =>
    match store (data.take cut_off) with
    | .ok => some ([cut_off], .ok cut_off)
    | .capacityExceeded =>
      match chunk_size_probe_loop store data fuel (cut_off / 2) with
      | none => none
      | some (attempts, r) => some (cut_off :: attempts, r)
    | .otherError => some ([cut_off], .error ())

/-- `_chunk_size_probe` from the source: the loop above started at
`cut_off = len(data)`. -/
def chunk_size_probe (store : PyStr → WriteResult) (data : PyStr) (fuel : Nat) :
    Option (List Nat × Except Unit Nat) :=
  chunk_size_probe_loop store data fuel data.length

/-- `_get_static_cut_off_` from the source: the configured chunk size
minus the fixed 1000-character margin (over `Int`, as in Python). -/
def _get_static_cut_off_ (chunk_size : Int) : Int :=
  chunk_size - 1000

/-- The fragment-writing `while chunk_pos < len(packed_state)` loop of
`set_state`, with fuel: emits the sequence of `(index, chunk)` writes,
where each chunk is the slice `packed_state[chunk_pos : chunk_pos +
cut_off]`. `none` means the fuel ran out (the loop would not have
terminated for `cut_off = 0`). -/
def write_loop (packed_state : PyStr) (cut_off : Nat) :
    Nat → Nat → Nat → Option (List (Nat × PyStr))
  | 0, _, _ => none
  | fuel + 1, chunks_done, chunk_pos =>
    if chunk_pos < packed_state.length then
      match write_loop packed_state cut_off fuel (chunks_done + 1) (chunk_pos + cut_off) with
      | none => none
      | some rest =>
        some ((chunks_done, (packed_state.drop chunk_pos).take cut_off) :: rest)
    else some []

/-- The write sequence of `set_state` in probing mode (`chunk_size ==
-1`): run `_chunk_size_probe` (all its attempts are writes to chunk
index 0), then enter the loop with `chunks_done = 1` and `chunk_pos =
cut_off`. Returns the probe's writes and the loop's writes. -/
def set_state_auto_writes (store : PyStr → WriteResult) (packed_state : PyStr)
    (probe_fuel loop_fuel : Nat) :
    Option (List (Nat × PyStr) × List (Nat × PyStr)) :=
  match chunk_size_probe store packed_state probe_fuel with
  | some (attempts, .ok cut_off) =>
    match write_loop packed_state cut_off loop_fuel 1 cut_off with
    | some ws => some (attempts.map (fun a => (0, packed_state.take a)), ws)
    | none => none
  | _ => none

/-- The write sequence of `set_state` in static mode (`chunk_size ≠
-1`): `cut_off = _get_static_cut_off_()` and the loop starts at
`chunks_done = 0`, `chunk_pos = 0`. (Only meaningful for a positive
cut-off; the loop does not terminate otherwise, which the fuel makes
explicit.) -/
def set_state_static_writes (chunk_size : Int) (packed_state : PyStr)
    (loop_fuel : Nat) : Option (List (Nat × PyStr)) :=
  write_loop packed_state (_get_static_cut_off_ chunk_size).toNat loop_fuel 0 0

/-- `_delete_old_chunks` from the source: of the keys listed under the
state path (given here by their parsed integer indices `int(k)`), delete
exactly those with `int(k) > chunks_done - 1`. Returns the deleted
indices. -/
def _delete_old_chunks (listed_indices : List Int) (chunks_done : Nat) : List Int :=
  listed_indices.filter (fun k => k > (chunks_done : Int) - 1)

/-- The indices left in place by `_delete_old_chunks`. -/
def remaining_chunks (listed_indices : List Int) (chunks_done : Nat) : List Int :=
  listed_indices.filter (fun k => ¬ k > (chunks_done : Int) - 1)

/-- The store state the LockManager sees: the versions currently at the
lock path, `none` when no version exists. `acquire_lock` writes with
`cas=0`, a conditional create that Vault rejects with `InvalidRequest`
when a version already exists. -/
structure LockPath (α : Type) where
  lock : Option α

/-- The engine's error kinds that reach callers, mirroring the
`HTTPException` status codes of the source: 423 ("already locked"),
404, 502 (connection error) and 403 (Vault auth). -/
inductive VaultErr where
  | lockConflict
  | notFound
  | badGateway
  | forbidden
deriving DecidableEq

/-- `acquire_lock` from the source: `create_or_update_secret(path=lock_path,
secret=lock_data, cas=0)`; Vault's `InvalidRequest` (a version already
exists) becomes HTTP 423 "Lock cannot be acquired: already locked". -/
def acquire_lock (st : LockPath α) (lock_data : α) : Except VaultErr (LockPath α) :=
  match st.lock with
  | some _ => .error .lockConflict
  | none => .ok ⟨some lock_data⟩

/-- `release_lock` from the source:
`delete_metadata_and_all_versions(lock_path)` leaves no version at the
lock path. -/
def release_lock (_st : LockPath α) : LockPath α :=
  ⟨none⟩

/-- A concrete three-fragment read function: key "0" holds `v0` live,
key "1" holds `v1` but carries a deletion marker, key "2" holds `v2`
live. -/
def threeFragmentRead (v0 v1 v2 : PyStr) : PyStr → Secret :=
  fun k =>
    if k = pystr "0" then ⟨v0, []⟩
    else if k = pystr "1" then ⟨v1, pystr "2024-01-01T00:00:00Z"⟩
    else ⟨v2, []⟩

/-- A concrete two-fragment read function: key "0" holds "A", every
other key holds "B", all live. -/
def twoFragmentRead : PyStr → Secret :=
  fun k => if k = pystr "0" then ⟨pystr "A", []⟩ else ⟨pystr "B", []⟩

/-- A read function under which every key holds the packed form of
`null` (as written by a caller-level `set_state(None)`), live. -/
def nullStateRead : PyStr → Secret :=
  fun _ => ⟨pack_state testCodec JValue.null, []⟩

theorem splitOnceColon_of_not_mem (s : PyStr) (h : ':' ∉ s) :
    splitOnceColon s = none := by
  induction s with
  | nil => rfl
  | cons ch rest ih =>
    have hch : ¬ ch = ':' := fun he => h (by simp [he])
    have hrest : ':' ∉ rest := fun hm => h (List.mem_cons_of_mem _ hm)
    simp [splitOnceColon, hch, ih hrest]

theorem splitOnceColon_append (pre rest : PyStr) (h : ':' ∉ pre) :
    splitOnceColon (pre ++ ':' :: rest) = some (pre, rest) := by
  induction pre with
  | nil => simp [splitOnceColon]
  | cons ch p ih =>
    have hch : ¬ ch = ':' := fun he => h (by simp [he])
    have hp : ':' ∉ p := fun hm => h (List.mem_cons_of_mem _ hm)
    simp [splitOnceColon, hch, ih hp]

/-- C1: for every JSON-representable value `x` (including null), given
the round-trip contracts of the external `json`, UTF-8, `gzip` and
`base64` codecs at `x`, unpacking the result of packing `x` returns `x`:
`unpack_state(pack_state(x)) == x`. -/
theorem unpack_pack_roundtrip {α : Type} (c : Codec α) (x : α)
    (hjson : c.loads (c.dumps x) = some x)
    (hutf : c.utf8decode (c.utf8encode (c.dumps x)) = some (c.dumps x))
    (hgzip : c.decompress (c.compress (c.utf8encode (c.dumps x))) =
      some (c.utf8encode (c.dumps x)))
    (hb64 : c.b64decode (c.b64encode (c.compress (c.utf8encode (c.dumps x)))) =
      some (c.compress (c.utf8encode (c.dumps x)))) :
    unpack_state c (pack_state c x) = .ok x := by
  have hsplit := splitOnceColon_append FORMAT_VERSION
    (c.b64encode (c.compress (c.utf8encode (c.dumps x)))) (by decide)
  simp [pack_state, unpack_state, hsplit, hb64, hgzip, hutf, hjson]

/-- Witness for `unpack_pack_roundtrip`: the concrete codec
instantiation round-trips the value `null`. -/
theorem unpack_pack_roundtrip_witness :
    (testCodec.loads (testCodec.dumps .null) = some .null) ∧
    unpack_state testCodec (pack_state testCodec .null) = .ok .null :=
  ⟨rfl, unpack_pack_roundtrip testCodec .null rfl rfl rfl rfl⟩

/-- C7: `unpack_state` splits its input once on `':'`; every input
containing no `':'` (fewer than two pieces) fails with
`MissingFormatVersionError`, and every input whose tag piece — the text
before the first `':'` — is not equal to the single supported version
fails with `UnsupportedFormatVersionError` carrying the offending tag
(e.g. tag `"v9999999"` is reported as `"v9999999"`). -/
theorem unpack_state_version_errors {α : Type} (c : Codec α) :
    (∀ s : PyStr, ':' ∉ s →
      unpack_state c s = .error .missingFormatVersion) ∧
    (∀ version payload : PyStr, ':' ∉ version → version ≠ FORMAT_VERSION →
      unpack_state c (version ++ ':' :: payload) =
        .error (.unsupportedFormatVersion version)) := by
  constructor
  · intro s hs
    simp [unpack_state, splitOnceColon_of_not_mem s hs]
  · intro version payload hv hne
    simp [unpack_state, splitOnceColon_append version payload hv, hne]

/-- Witness for `unpack_state_version_errors` at the inputs `"abc"` and
`"v9999999:xyz"`. -/
theorem unpack_state_version_errors_witness :
    (':' ∉ pystr "abc") ∧
    unpack_state testCodec (pystr "abc") = .error .missingFormatVersion ∧
    (':' ∉ pystr "v9999999" ∧ pystr "v9999999" ≠ FORMAT_VERSION) ∧
    unpack_state testCodec (pystr "v9999999" ++ ':' :: pystr "xyz") =
      .error (.unsupportedFormatVersion (pystr "v9999999")) :=
  ⟨by decide, (unpack_state_version_errors testCodec).1 (pystr "abc") (by decide),
    ⟨by decide, by decide⟩,
    (unpack_state_version_errors testCodec).2 (pystr "v9999999") (pystr "xyz")
      (by decide) (by decide)⟩

theorem get_state_text_def (chunk_keys : List PyStr) (read : PyStr → Secret) :
    get_state_text chunk_keys read =
      (((chunk_keys.map (fun k => (k, chunk_read read k))).filter
        (fun kv => optTruthy kv.2)).map (fun kv => kv.2.getD [])).flatten := rfl

theorem optTruthy_none : optTruthy none = false := rfl

theorem optTruthy_some (s : PyStr) : optTruthy (some s) = !s.isEmpty := rfl

theorem get_state_text_eq (chunk_keys : List PyStr) (read : PyStr → Secret) :
    get_state_text chunk_keys read =
      ((chunk_keys.filter (fun k => (read k).deletion_time = [])).map
        (fun k => (read k).value)).flatten := by
  rw [get_state_text_def]
  induction chunk_keys with
  | nil => rfl
  | cons k ks ih =>
    by_cases hd : (read k).deletion_time = []
    · have hcr : chunk_read read k = some (read k).value := by
        simp [chunk_read, hd]
      cases hval : (read k).value with
      | nil => simp [List.filter_cons, hcr, hval, optTruthy_some, hd, ih]
      | cons ch cs => simp [List.filter_cons, hcr, hval, optTruthy_some, hd, ih]
    · have hcr : chunk_read read k = none := by
        simp [chunk_read, hd]
      simp [List.filter_cons, hcr, optTruthy_none, hd, ih]

/-- C9: a fragment carrying a deletion marker contributes no bytes to
the reassembled text — fragments [valid0, deleted1, valid2], listed in
that order, reassemble to valid0 ++ valid2 for every choice of values. -/
theorem deleted_fragment_contributes_no_bytes (v0 v1 v2 : PyStr) :
    get_state_text [pystr "0", pystr "1", pystr "2"]
      (threeFragmentRead v0 v1 v2) = v0 ++ v2 := by
  rw [get_state_text_eq]
  show v0 ++ (v2 ++ []) = v0 ++ v2
  simp

/-- C3 (amended): a listing failure at the state path (zero keys) makes
`get_state` fail with NotFound ("No state exists"), while "keys exist
but every fragment carries a deletion marker" yields the empty
concatenation, which does not decode normally: it fails in the Codec
with `MissingFormatVersionError`. The two outcomes remain distinct. -/
theorem get_state_notfound_vs_all_deleted (c : Codec JValue) (read : PyStr → Secret) :
    get_state c none read = .error .notFound ∧
    (∀ chunk_keys : List PyStr, chunk_keys ≠ [] →
      (∀ k ∈ chunk_keys, (read k).deletion_time ≠ []) →
      get_state c (some chunk_keys) read = .error (.format .missingFormatVersion)) := by
  refine ⟨rfl, fun chunk_keys _ hdel => ?_⟩
  have hfilter : chunk_keys.filter (fun k => (read k).deletion_time = []) = [] := by
    rw [List.filter_eq_nil_iff]
    intro k hk
    simpa using hdel k hk
  have htext : get_state_text chunk_keys read = [] := by
    rw [get_state_text_eq, hfilter]
    rfl
  show (match unpack_state c (get_state_text chunk_keys read) with
    | .error e => (Except.error (GetStateErr.format e) : Except GetStateErr JValue)
    | .ok o => Except.ok (if pyTruthy o then o else JValue.obj [])) = _
  rw [htext]
  rfl

/-- Witness for `get_state_notfound_vs_all_deleted`: an empty listing,
and a store whose single listed fragment "1" is deleted. -/
theorem get_state_notfound_vs_all_deleted_witness :
    get_state testCodec none (threeFragmentRead [] [] []) = .error .notFound ∧
    ([pystr "1"] ≠ ([] : List PyStr)) ∧
    get_state testCodec (some [pystr "1"]) (threeFragmentRead [] [] []) =
      .error (.format .missingFormatVersion) :=
  ⟨(get_state_notfound_vs_all_deleted testCodec (threeFragmentRead [] [] [])).1,
    by decide,
    (get_state_notfound_vs_all_deleted testCodec (threeFragmentRead [] [] [])).2
      [pystr "1"] (by decide) (by decide)⟩

/-- C3 counterexample: with one listed fragment carrying a deletion
marker, the empty concatenation does not decode through the Codec
normally — `get_state` fails with the `MissingFormatVersionError` parse
failure. -/
theorem all_deleted_parse_failure_cex :
    get_state testCodec (some [pystr "1"]) (threeFragmentRead [] [] []) =
      .error (.format .missingFormatVersion) := rfl

theorem insertByIdx_of_le (x : Nat × PyStr) (l : List (Nat × PyStr))
    (h : ∀ y ∈ l, x.1 ≤ y.1) : insertByIdx x l = x :: l := by
  cases l with
  | nil => rfl
  | cons y ys => simp [insertByIdx, h y (List.mem_cons_self y ys)]

theorem sortByIdx_of_sorted (l : List (Nat × PyStr))
    (h : l.Pairwise (fun a b => a.1 ≤ b.1)) : sortByIdx l = l := by
  induction l with
  | nil => rfl
  | cons x xs ih =>
    rw [sortByIdx, ih (List.pairwise_cons.mp h).2,
      insertByIdx_of_le x xs (List.pairwise_cons.mp h).1]

/-- C2 (amended): `get_state` performs no numeric sort — it concatenates
the non-deleted fragment values in the order the store listing returns
the keys. When that listing order is already ascending by numeric index,
the result coincides with the numerically-sorted reassembly the spec
describes. -/
theorem get_state_text_listing_order (chunk_keys : List PyStr) (read : PyStr → Secret)
    (hasc : (chunk_keys.filter (fun k => (read k).deletion_time = [])).Pairwise
      (fun a b => parse_index a ≤ parse_index b)) :
    get_state_text chunk_keys read = reassemble_sorted chunk_keys read := by
  rw [get_state_text_eq]
  have hdef : reassemble_sorted chunk_keys read =
      ((sortByIdx ((chunk_keys.filter (fun k => (read k).deletion_time = [])).map
        (fun k => (parse_index k, (read k).value)))).map Prod.snd).flatten := rfl
  rw [hdef, sortByIdx_of_sorted _ ((List.pairwise_map).mpr hasc), List.map_map]
  rfl

/-- Witness for `get_state_text_listing_order`: keys listed in ascending
numeric order, with fragment "1" deleted. -/
theorem get_state_text_listing_order_witness :
    ([pystr "0", pystr "1", pystr "2"].filter
      (fun k => ((threeFragmentRead (pystr "AA") (pystr "BB") (pystr "CC")) k).deletion_time
        = [])).Pairwise (fun a b => parse_index a ≤ parse_index b) ∧
    get_state_text [pystr "0", pystr "1", pystr "2"]
      (threeFragmentRead (pystr "AA") (pystr "BB") (pystr "CC")) =
    reassemble_sorted [pystr "0", pystr "1", pystr "2"]
      (threeFragmentRead (pystr "AA") (pystr "BB") (pystr "CC")) :=
  ⟨by decide, get_state_text_listing_order _ _ (by decide)⟩

/-- C2 counterexample: with listing order ["1", "0"] (both fragments
live, key "0" holding "A", key "1" holding "B"), `get_state` reassembles
"BA" — the listing order — while the claimed numeric sort yields "AB". -/
theorem get_state_no_numeric_sort_cex :
    get_state_text [pystr "1", pystr "0"] twoFragmentRead = pystr "BA" ∧
    reassemble_sorted [pystr "1", pystr "0"] twoFragmentRead = pystr "AB" ∧
    pystr "BA" ≠ pystr "AB" :=
  ⟨rfl, rfl, by decide⟩

/-- C10: when the decoded state value is falsy (null, false, 0, "",
[], {}), `get_state` returns the empty object {} instead of the decoded
value — in particular a state packed from null reads back as {}, never
as null, so the caller-level read does not invert the caller-level
write for falsy values. -/
theorem falsy_state_reads_as_empty_obj (c : Codec JValue)
    (chunk_keys : List PyStr) (read : PyStr → Secret) (v : JValue)
    (hunpack : unpack_state c (get_state_text chunk_keys read) = .ok v)
    (hfalsy : pyTruthy v = false) :
    get_state c (some chunk_keys) read = .ok (.obj []) ∧
    get_state c (some chunk_keys) read ≠ .ok JValue.null := by
  have hget : get_state c (some chunk_keys) read =
      .ok (if pyTruthy v then v else .obj []) := by
    show (match unpack_state c (get_state_text chunk_keys read) with
      | .error e => (Except.error (GetStateErr.format e) : Except GetStateErr JValue)
      | .ok o => Except.ok (if pyTruthy o then o else JValue.obj [])) = _
    rw [hunpack]
  rw [hget, hfalsy]
  refine ⟨rfl, fun h => ?_⟩
  simp only [if_neg Bool.false_ne_true, Except.ok.injEq] at h
  exact JValue.noConfusion h

/-- Witness for `falsy_state_reads_as_empty_obj`: a store holding the
packed form of null as its single live fragment reads back as {}. -/
theorem falsy_state_reads_as_empty_obj_witness :
    unpack_state testCodec (get_state_text [pystr "0"] nullStateRead) = .ok .null ∧
    pyTruthy .null = false ∧
    get_state testCodec (some [pystr "0"]) nullStateRead = .ok (.obj []) :=
  ⟨rfl, rfl,
    (falsy_state_reads_as_empty_obj testCodec [pystr "0"] nullStateRead .null rfl rfl).1⟩

/-- C5: after writing `n` fragments, `_delete_old_chunks` deletes
exactly the listed keys whose integer index is ≥ `n` and leaves those
with index < `n`; writing a 2-fragment state over a previous 5-fragment
state deletes indices 2, 3, 4 and leaves exactly 0 and 1. -/
theorem delete_old_chunks_spec :
    (∀ (listed_indices : List Int) (chunks_done : Nat),
      _delete_old_chunks listed_indices chunks_done =
        listed_indices.filter (fun k => (chunks_done : Int) ≤ k) ∧
      remaining_chunks listed_indices chunks_done =
        listed_indices.filter (fun k => k < (chunks_done : Int))) ∧
    _delete_old_chunks [0, 1, 2, 3, 4] 2 = [2, 3, 4] ∧
    remaining_chunks [0, 1, 2, 3, 4] 2 = [0, 1] := by
  refine ⟨fun listed_indices chunks_done => ⟨?_, ?_⟩, by decide, by decide⟩
  · exact List.filter_congr fun k _ => by
      rw [decide_eq_decide]
      omega
  · exact List.filter_congr fun k _ => by
      rw [decide_eq_decide]
      omega

/-- C6: lock mutual exclusion via conditional create — `acquire_lock`
on an empty lock path succeeds by creating the lock record; a second
acquire before release fails with the LockConflict error, which is
distinct from every other store error kind; after `release_lock`
deletes all versions at the lock path, acquiring succeeds again. -/
theorem lock_mutual_exclusion {α : Type} (m1 m2 : α) :
    acquire_lock (⟨none⟩ : LockPath α) m1 = .ok ⟨some m1⟩ ∧
    acquire_lock (⟨some m1⟩ : LockPath α) m2 = .error .lockConflict ∧
    (VaultErr.lockConflict ≠ VaultErr.notFound ∧
      VaultErr.lockConflict ≠ VaultErr.badGateway ∧
      VaultErr.lockConflict ≠ VaultErr.forbidden) ∧
    acquire_lock (release_lock (⟨some m1⟩ : LockPath α)) m2 = .ok ⟨some m2⟩ :=
  ⟨rfl, rfl, ⟨by decide, by decide, by decide⟩, rfl⟩

theorem write_loop_spec (packed_state : PyStr) (cut_off : Nat) (hcut : 0 < cut_off) :
    ∀ (fuel chunk_pos chunks_done : Nat),
      packed_state.length - chunk_pos < fuel →
      ∃ ws : List (Nat × PyStr),
        write_loop packed_state cut_off fuel chunks_done chunk_pos = some ws ∧
        ws.map Prod.fst = List.range' chunks_done ws.length ∧
        (ws.map Prod.snd).flatten = packed_state.drop chunk_pos ∧
        (∀ (i : Nat) (h : i < ws.length),
          ws.get ⟨i, h⟩ =
            (chunks_done + i, (packed_state.drop (chunk_pos + i * cut_off)).take cut_off)) ∧
        ws.length = (packed_state.length - chunk_pos + cut_off - 1) / cut_off := by
  intro fuel
  induction fuel with
  | zero =>
    intro pos done h
    exact absurd h (Nat.not_lt_zero _)
  | succ fuel ih =>
    intro pos done hfuel
    by_cases hpos : pos < packed_state.length
    · obtain ⟨ws', hws', hidx', hjoin', hget', hlen'⟩ :=
        ih (pos + cut_off) (done + 1) (by omega)
      refine ⟨(done, (packed_state.drop pos).take cut_off) :: ws', ?_, ?_, ?_, ?_, ?_⟩
      · simp [write_loop, hpos, hws']
      · simp only [List.map_cons, hidx', List.length_cons]
        rfl
      · simp only [List.map_cons, List.flatten_cons, hjoin']
        have hdd : packed_state.drop (pos + cut_off) = (packed_state.drop pos).drop cut_off := by
          rw [List.drop_drop, Nat.add_comm]
        rw [hdd, List.take_append_drop]
      · intro i h
        cases i with
        | zero =>
          simp
        | succ i =>
          have hh : i < ws'.length := by
            simp only [List.length_cons] at h
            omega
          rw [List.get_cons_succ, hget' i hh]
          have h1 : done + 1 + i = done + (i + 1) := by omega
          have h2 : pos + cut_off + i * cut_off = pos + (i + 1) * cut_off := by ring
          rw [h1, h2]
      · simp only [List.length_cons, hlen']
        have hm : 1 ≤ packed_state.length - pos := by omega
        rw [show packed_state.length - pos + cut_off - 1
            = (packed_state.length - pos - 1) + cut_off from by omega,
          Nat.add_div_right _ hcut]
        by_cases hmc : packed_state.length - pos ≤ cut_off
        · rw [show packed_state.length - (pos + cut_off) + cut_off - 1
              = cut_off - 1 from by omega,
            Nat.div_eq_of_lt (by omega), Nat.div_eq_of_lt (by omega)]
        · rw [show packed_state.length - (pos + cut_off) + cut_off - 1
              = packed_state.length - pos - 1 from by omega]
    · refine ⟨[], ?_, rfl, ?_, ?_, ?_⟩
      · simp [write_loop, hpos]
      · show ([] : PyStr) = packed_state.drop pos
        rw [List.drop_eq_nil_of_le (by omega)]
      · intro i h
        exact absurd h (by simp)
      · rw [show packed_state.length - pos + cut_off - 1 = cut_off - 1 from by omega,
          Nat.div_eq_of_lt (by omega)]
        rfl

theorem probe_loop_threshold (T : Nat) (data : PyStr) :
    ∀ (fuel cur : Nat), cur < fuel → cur ≤ data.length →
    ∃ (c : Nat) (attempts : List Nat),
      chunk_size_probe_loop (thresholdStore T) data fuel cur = some (attempts, .ok c) ∧
      c ≤ T ∧
      thresholdStore T (data.take c) = .ok ∧
      attempts.head? = some cur ∧
      c ∈ attempts ∧
      (∀ a ∈ attempts, c ≤ a ∧ a ≤ cur) ∧
      (∀ a ∈ attempts, a ≠ c → thresholdStore T (data.take a) = .capacityExceeded) ∧
      (c = cur ∨ T ≤ 2 * c) := by
  intro fuel
  induction fuel with
  | zero =>
    intro cur h _
    exact absurd h (Nat.not_lt_zero _)
  | succ fuel ih =>
    intro cur hfuel hlen
    by_cases hacc : cur ≤ T
    · have htake : (data.take cur).length ≤ T := by
        rw [List.length_take]
        omega
      have hstore : thresholdStore T (data.take cur) = .ok := by
        simp only [thresholdStore]
        rw [if_pos htake]
      refine ⟨cur, [cur], ?_, hacc, hstore, rfl, List.mem_singleton_self cur, ?_, ?_,
        Or.inl rfl⟩
      · simp [chunk_size_probe_loop, hstore]
      · intro a ha
        rw [List.mem_singleton] at ha
        subst ha
        exact ⟨Nat.le_refl _, Nat.le_refl _⟩
      · intro a ha hne
        rw [List.mem_singleton] at ha
        exact absurd ha hne
    · have htake : (data.take cur).length = cur := by
        rw [List.length_take]
        omega
      have hstore : thresholdStore T (data.take cur) = .capacityExceeded := by
        simp only [thresholdStore, htake]
        rw [if_neg hacc]
      obtain ⟨c, attempts, hloop, hcT, hcok, hhead, hcmem, hbounds, hrej, hbr⟩ :=
        ih (cur / 2) (by omega) (by omega)
      refine ⟨c, cur :: attempts, ?_, hcT, hcok, rfl, List.mem_cons_of_mem _ hcmem, ?_, ?_, ?_⟩
      · simp [chunk_size_probe_loop, hstore, hloop]
      · intro a ha
        rcases List.mem_cons.mp ha with h | h
        · subst h
          exact ⟨by omega, Nat.le_refl _⟩
        · have hb := hbounds a h
          exact ⟨hb.1, by omega⟩
      · intro a ha hne
        rcases List.mem_cons.mp ha with h | h
        · subst h
          exact hstore
        · exact hrej a h hne
      · right
        rcases hbr with h | h
        · omega
        · exact h

/-- C4: with auto chunk size (-1), the probe starts with cutoff equal to
the serialized length, retries with integer-halved cutoffs on each
capacity rejection, aborts the write on any other store error, and
terminates at the first accepted write; against a store that rejects
writes above `T` characters (0 < T < length), the returned cutoff is
≤ T, its own write succeeded, and every other cutoff in the halving
sequence was larger and was rejected; the accepted probe write is
fragment 0, and `set_state` then writes only fragments 1.. covering the
text from offset `cutoff` on, never rewriting index 0. -/
theorem chunk_size_probe_auto_spec (T : Nat) (data : PyStr)
    (hT : T < data.length) (hTpos : 0 < T) :
    (∀ (d : PyStr) (f : Nat),
      chunk_size_probe (fun _ => WriteResult.otherError) d (f + 1) =
        some ([d.length], .error ())) ∧
    ∃ (c : Nat) (attempts : List Nat) (loop_writes : List (Nat × PyStr)),
      chunk_size_probe (thresholdStore T) data (data.length + 1) =
        some (attempts, .ok c) ∧
      c ≤ T ∧
      thresholdStore T (data.take c) = .ok ∧
      attempts.head? = some data.length ∧
      (∀ a ∈ attempts, a ≠ c →
        c < a ∧ thresholdStore T (data.take a) = .capacityExceeded) ∧
      set_state_auto_writes (thresholdStore T) data (data.length + 1)
        (data.length + 1) =
        some (attempts.map (fun a => (0, data.take a)), loop_writes) ∧
      (0, data.take c) ∈ attempts.map (fun a => (0, data.take a)) ∧
      loop_writes.map Prod.fst = List.range' 1 loop_writes.length ∧
      (∀ w ∈ loop_writes, w.1 ≠ 0) ∧
      data.take c ++ (loop_writes.map Prod.snd).flatten = data := by
  constructor
  · intro d f
    rfl
  · obtain ⟨c, attempts, hloop, hcT, hok, hhead, hcmem, hbounds, hrej, hbr⟩ :=
      probe_loop_threshold T data (data.length + 1) data.length (by omega) (Nat.le_refl _)
    have hcpos : 0 < c := by
      rcases hbr with h | h <;> omega
    obtain ⟨ws, hws, hidx, hjoin, _, _⟩ :=
      write_loop_spec data c hcpos (data.length + 1) c 1 (by omega)
    have hauto : set_state_auto_writes (thresholdStore T) data (data.length + 1)
        (data.length + 1) = some (attempts.map (fun a => (0, data.take a)), ws) := by
      simp only [set_state_auto_writes, chunk_size_probe, hloop, hws]
    refine ⟨c, attempts, ws, hloop, hcT, hok, hhead, ?_, hauto, ?_, hidx, ?_, ?_⟩
    · intro a ha hne
      exact ⟨Nat.lt_of_le_of_ne (hbounds a ha).1 fun he => hne he.symm, hrej a ha hne⟩
    · exact List.mem_map_of_mem _ hcmem
    · intro w hw
      have h1 : w.1 ∈ ws.map Prod.fst := List.mem_map_of_mem Prod.fst hw
      rw [hidx, List.mem_range'_1] at h1
      omega
    · rw [hjoin, List.take_append_drop]

/-- Witness for `chunk_size_probe_auto_spec`: probing a threshold-2
store with the 5-character text "abcde". -/
theorem chunk_size_probe_auto_spec_witness :
    (0 < 2 ∧ 2 < (pystr "abcde").length) ∧
    ((∀ (d : PyStr) (f : Nat),
      chunk_size_probe (fun _ => WriteResult.otherError) d (f + 1) =
        some ([d.length], .error ())) ∧
    ∃ (c : Nat) (attempts : List Nat) (loop_writes : List (Nat × PyStr)),
      chunk_size_probe (thresholdStore 2) (pystr "abcde") ((pystr "abcde").length + 1) =
        some (attempts, .ok c) ∧
      c ≤ 2 ∧
      thresholdStore 2 ((pystr "abcde").take c) = .ok ∧
      attempts.head? = some ((pystr "abcde").length) ∧
      (∀ a ∈ attempts, a ≠ c →
        c < a ∧ thresholdStore 2 ((pystr "abcde").take a) = .capacityExceeded) ∧
      set_state_auto_writes (thresholdStore 2) (pystr "abcde")
        ((pystr "abcde").length + 1) ((pystr "abcde").length + 1) =
        some (attempts.map (fun a => (0, (pystr "abcde").take a)), loop_writes) ∧
      (0, (pystr "abcde").take c) ∈ attempts.map (fun a => (0, (pystr "abcde").take a)) ∧
      loop_writes.map Prod.fst = List.range' 1 loop_writes.length ∧
      (∀ w ∈ loop_writes, w.1 ≠ 0) ∧
      (pystr "abcde").take c ++ (loop_writes.map Prod.snd).flatten = pystr "abcde") :=
  ⟨⟨by decide, by decide⟩,
    chunk_size_probe_auto_spec 2 (pystr "abcde") (by decide) (by decide)⟩

/-- C8: with a fixed (non-auto) configured maximum fragment size, the
effective cutoff is the configured size minus the fixed 1000-character
safety margin; given that this cutoff is positive, `set_state`
partitions the packed text of length n into ceil(n / cutoff) contiguous
in-order slices — each of length cutoff except possibly a shorter final
one — written at ascending indices 0..ceil(n/cutoff)-1. -/
theorem static_chunking_spec (chunk_size : Int) (packed_state : PyStr)
    (hcut : 0 < _get_static_cut_off_ chunk_size)
    (fuel : Nat) (hfuel : packed_state.length < fuel) :
    _get_static_cut_off_ chunk_size = chunk_size - 1000 ∧
    ∃ ws : List (Nat × PyStr),
      set_state_static_writes chunk_size packed_state fuel = some ws ∧
      ws.length = (packed_state.length + (_get_static_cut_off_ chunk_size).toNat - 1)
        / (_get_static_cut_off_ chunk_size).toNat ∧
      ws.map Prod.fst = List.range ws.length ∧
      (ws.map Prod.snd).flatten = packed_state ∧
      (∀ (i : Nat) (h : i < ws.length),
        ws.get ⟨i, h⟩ =
          (i, (packed_state.drop (i * (_get_static_cut_off_ chunk_size).toNat)).take
            (_get_static_cut_off_ chunk_size).toNat)) ∧
      (∀ (i : Nat) (h : i < ws.length), i + 1 < ws.length →
        ((ws.get ⟨i, h⟩).2).length = (_get_static_cut_off_ chunk_size).toNat) ∧
      (∀ (i : Nat) (h : i < ws.length),
        ((ws.get ⟨i, h⟩).2).length ≤ (_get_static_cut_off_ chunk_size).toNat) := by
  refine ⟨rfl, ?_⟩
  have hcutpos : 0 < (_get_static_cut_off_ chunk_size).toNat := by omega
  obtain ⟨ws, hws, hidx, hjoin, hget, hlen⟩ :=
    write_loop_spec packed_state (_get_static_cut_off_ chunk_size).toNat hcutpos
      fuel 0 0 (by omega)
  have hget0 : ∀ (i : Nat) (h : i < ws.length),
      ws.get ⟨i, h⟩ =
        (i, (packed_state.drop (i * (_get_static_cut_off_ chunk_size).toNat)).take
          (_get_static_cut_off_ chunk_size).toNat) := by
    intro i h
    have := hget i h
    simpa using this
  refine ⟨ws, hws, ?_, ?_, ?_, hget0, ?_, ?_⟩
  · rw [hlen, Nat.sub_zero]
  · rw [hidx, List.range_eq_range']
  · rw [hjoin, List.drop_zero]
  · intro i h hnext
    rw [hget0 i h]
    simp only [List.length_take, List.length_drop]
    have e2 : (i + 2) * (_get_static_cut_off_ chunk_size).toNat =
        i * (_get_static_cut_off_ chunk_size).toNat +
        (_get_static_cut_off_ chunk_size).toNat +
        (_get_static_cut_off_ chunk_size).toNat := by ring
    have h3 : (i + 2) * (_get_static_cut_off_ chunk_size).toNat ≤
        packed_state.length + (_get_static_cut_off_ chunk_size).toNat - 1 := by
      have hn2 : i + 2 ≤
          (packed_state.length - 0 + (_get_static_cut_off_ chunk_size).toNat - 1) /
            (_get_static_cut_off_ chunk_size).toNat := by
        rw [← hlen]
        omega
      have hmul := (Nat.le_div_iff_mul_le hcutpos).mp hn2
      omega
    omega
  · intro i h
    rw [hget0 i h]
    simp only [List.length_take]
    exact Nat.min_le_left _ _

/-- Witness for `static_chunking_spec`: a configured size of 1002
(cutoff 2) against the 5-character text "abcde". -/
theorem static_chunking_spec_witness :
    (0 < _get_static_cut_off_ 1002 ∧ (pystr "abcde").length < 6) ∧
    (_get_static_cut_off_ 1002 = 1002 - 1000 ∧
    ∃ ws : List (Nat × PyStr),
      set_state_static_writes 1002 (pystr "abcde") 6 = some ws ∧
      ws.length = ((pystr "abcde").length + (_get_static_cut_off_ 1002).toNat - 1)
        / (_get_static_cut_off_ 1002).toNat ∧
      ws.map Prod.fst = List.range ws.length ∧
      (ws.map Prod.snd).flatten = pystr "abcde" ∧
      (∀ (i : Nat) (h : i < ws.length),
        ws.get ⟨i, h⟩ =
          (i, ((pystr "abcde").drop (i * (_get_static_cut_off_ 1002).toNat)).take
            (_get_static_cut_off_ 1002).toNat)) ∧
      (∀ (i : Nat) (h : i < ws.length), i + 1 < ws.length →
        ((ws.get ⟨i, h⟩).2).length = (_get_static_cut_off_ 1002).toNat) ∧
      (∀ (i : Nat) (h : i < ws.length),
        ((ws.get ⟨i, h⟩).2).length ≤ (_get_static_cut_off_ 1002).toNat)) :=
  ⟨⟨by decide, by decide⟩,
    static_chunking_spec 1002 (pystr "abcde") (by decide) 6 (by decide)⟩
